import Mathlib

/- Verification of the dlt destination connectors: a shallow embedding of the
   LanceDB destination client (dlt/destinations/impl/lancedb/lancedb_client.py)
   and of the Postgres destination client
   (dlt/destinations/impl/postgres/postgres.py), with proofs about the
   schema-evolution, write-disposition, orphan-removal and bookkeeping-lookup
   logic. Helpers of the repository that are referenced by the client but are
   not part of the given sources (the base TypeMapper dispatch, the arrow
   schema builders, get_default_arrow_value, the dlt core column diff) are
   modelled from the specification and marked as such in their doc comments. -/

namespace Dlt

/-- Logical dlt column data types the LanceDB type mapper handles: the keys of
sct_to_unbound_dbt plus the parameterized decimal, timestamp, time and wei
types handled by dedicated methods. -/
inductive DataType where
  | text
  | double
  | boolType
  | bigint
  | binary
  | date
  | complex
  | decimal
  | timestamp
  | time
  | wei
  deriving DecidableEq

/-- A logical column type fragment (TColumnType of dlt.common.schema.typing):
data_type with optional precision and scale. -/
structure TColumnType where
  dataType : DataType
  precision : Option Nat
  scale : Option Nat
  deriving DecidableEq

/-- The pyarrow datatypes produced and consumed by LanceDBTypeMapper. A
timestamp always carries the UTC timezone in the source, so only the unit is
kept. -/
inductive ArrowType where
  | string
  | float64
  | boolT
  | int64
  | binaryT
  | date32
  | decimal128 (precision scale : Nat)
  | timestampTz (unit : String)
  | time64 (unit : String)
  deriving DecidableEq

/-- The destination capability fields the LanceDB type mapper consults:
timestamp_precision, the default decimal precision and scale, and the wei
precision and scale pair. -/
structure Capabilities where
  timestampPrecision : Nat
  decimalPrecision : Nat
  decimalScale : Nat
  weiPrecision : Nat × Nat
  deriving DecidableEq

/-- TIMESTAMP_PRECISION_TO_UNIT of lancedb_client.py; a Python dict lookup,
none models a KeyError on a precision outside 0, 3, 6, 9. -/
def TIMESTAMP_PRECISION_TO_UNIT (p : Nat) : Option String :=
  if p = 0 then some "s"
  else if p = 3 then some "ms"
  else if p = 6 then some "us"
  else if p = 9 then some "ns"
  else none

/-- UNIT_TO_TIMESTAMP_PRECISION of lancedb_client.py, the inverted dict. -/
def UNIT_TO_TIMESTAMP_PRECISION (u : String) : Option Nat :=
  if u = "s" then some 0
  else if u = "ms" then some 3
  else if u = "us" then some 6
  else if u = "ns" then some 9
  else none

/-- Modelled from the spec: the decimal_precision helper of the base TypeMapper
(dlt/destinations/type_mapping.py is not part of the given sources) fills in
the destination-capability-declared default precision and scale when the
column does not set them. -/
def decimal_precision (caps : Capabilities) (p s : Option Nat) : Nat × Nat :=
  (p.getD caps.decimalPrecision, s.getD caps.decimalScale)

/-- LanceDBTypeMapper.to_db_decimal_type. -/
def to_db_decimal_type (caps : Capabilities) (p s : Option Nat) : ArrowType :=
  let ps := decimal_precision caps p s
  .decimal128 ps.1 ps.2

/-- LanceDBTypeMapper.to_db_datetime_type: the unit is derived from the
capability timestamp precision through TIMESTAMP_PRECISION_TO_UNIT; the
declared column precision is ignored. -/
def to_db_datetime_type (caps : Capabilities) : Option ArrowType :=
  (TIMESTAMP_PRECISION_TO_UNIT caps.timestampPrecision).map ArrowType.timestampTz

/-- LanceDBTypeMapper.to_db_time_type: same unit derivation as for
timestamps. -/
def to_db_time_type (caps : Capabilities) : Option ArrowType :=
  (TIMESTAMP_PRECISION_TO_UNIT caps.timestampPrecision).map ArrowType.time64

/-- The forward direction of the LanceDB type mapper. The unparameterized
types go through the sct_to_unbound_dbt mapping declared in the source
(sct_to_dbt is empty); decimal, timestamp and time go through the dedicated
methods above. The dispatch itself and the wei branch live in the base
TypeMapper class, modelled from the spec: to_destination_type with
destination-specific overrides for decimal, datetime, time, and a wei mapped
to a decimal with the capability-declared wei precision and scale pair. -/
def to_db_type (caps : Capabilities) (c : TColumnType) : Option ArrowType :=
  match c.dataType with
  | .text => some .string
  | .double => some .float64
  | .boolType => some .boolT
  | .bigint => some .int64
  | .binary => some .binaryT
  | .date => some .date32
  | .complex => some .string
  | .decimal => some (to_db_decimal_type caps c.precision c.scale)
  | .timestamp => to_db_datetime_type caps
  | .time => to_db_time_type caps
  | .wei => some (.decimal128 caps.weiPrecision.1 caps.weiPrecision.2)

/-- LanceDBTypeMapper.from_db_type: timestamps and times recover their
precision from their unit through UNIT_TO_TIMESTAMP_PRECISION; a decimal whose
precision and scale pair equals the capability wei pair is reported as wei
with no precision and no scale, any other decimal keeps its own precision and
scale; all remaining arrow types fall through to the dbt_to_sct dictionary
lookup of the base class with the precision and scale arguments passed through
unchanged (the base lookup is modelled from the spec, the dictionary itself is
declared in the source). -/
def from_db_type (caps : Capabilities) (t : ArrowType) (precision scale : Option Nat) :
    Option TColumnType :=
  match t with
  | .timestampTz u => (UNIT_TO_TIMESTAMP_PRECISION u).map (fun p => ⟨.timestamp, some p, scale⟩)
  | .time64 u => (UNIT_TO_TIMESTAMP_PRECISION u).map (fun p => ⟨.time, some p, scale⟩)
  | .decimal128 p s =>
      if (p, s) = caps.weiPrecision then some ⟨.wei, none, none⟩
      else some ⟨.decimal, some p, some s⟩
  | .string => some ⟨.text, precision, scale⟩
  | .float64 => some ⟨.double, precision, scale⟩
  | .boolT => some ⟨.boolType, precision, scale⟩
  | .int64 => some ⟨.bigint, precision, scale⟩
  | .binaryT => some ⟨.binary, precision, scale⟩
  | .date32 => some ⟨.date, precision, scale⟩

/-- The round trip of the spec: from_db_type after to_db_type, with the
default none precision and scale arguments of from_db_type. -/
def roundTrip (caps : Capabilities) (c : TColumnType) : Option TColumnType :=
  (to_db_type caps c).bind (fun t => from_db_type caps t none none)

/-- Classification of an exception escaping write_records:
DestinationTransientException, DestinationTerminalException, or a plain
builtin ValueError that is not part of the dlt destination exception
taxonomy. -/
inductive WriteError where
  | transient (msg : String)
  | terminal (msg : String)
  | valueError (msg : String)
  deriving DecidableEq

/-- Whether the raised exception belongs to the dlt destination exception
taxonomy (a DestinationTransientException or DestinationTerminalException)
rather than being a raw builtin exception. -/
def WriteError.inTaxonomy : WriteError → Bool
  | .transient _ => true
  | .terminal _ => true
  | .valueError _ => false

/-- The message of the DestinationTransientException raised when open_table
fails. -/
def transientOpenMsg : String :=
  "Could not open lancedb database. Batch WILL BE RETRIED"

/-- The message of the DestinationTerminalException raised on an unsupported
write disposition. -/
def unsupportedDispositionMsg (d : String) : String :=
  "Unsupported write disposition " ++ d ++
    " for LanceDB Destination - batch failed AND WILL NOT BE RETRIED."

/-- The message of the builtin ValueError raised by a merge without an
id_field_name. -/
def missingIdFieldMsg : String :=
  "To perform a merge update, id_field_name must be specified."

/-- Two rows match on the merge key when both carry a key value under the
id field and the values are equal (keyOf reads the id_field_name column of a
row). -/
def keysMatch {α : Type} (keyOf : String → α → Option String) (f : String) (s t : α) : Bool :=
  match keyOf f s, keyOf f t with
  | some x, some y => x == y
  | _, _ => false

/-- The LanceDB merge_insert chain when_matched_update_all followed by
when_not_matched_insert_all: target rows matched by a source row are replaced
by it, source rows matching no target row are inserted. -/
def upsertRows {α : Type} (keyOf : String → α → Option String) (f : String)
    (tbl records : List α) : List α :=
  tbl.map (fun r => (records.find? (fun s => keysMatch keyOf f s r)).getD r)
    ++ records.filter (fun s => !tbl.any (fun r => keysMatch keyOf f s r))

/-- The LanceDB merge_insert chain when_not_matched_by_source_delete: keep
exactly the target rows whose key appears in the source payload; matched rows
are not updated and source-only rows are not inserted. -/
def deleteOrphanRows {α : Type} (keyOf : String → α → Option String) (f : String)
    (tbl records : List α) : List α :=
  tbl.filter (fun r => records.any (fun s => keysMatch keyOf f s r))

/-- write_records of lancedb_client.py. The table argument is none when
open_table raises FileNotFoundError, which becomes a
DestinationTransientException before any disposition is examined. The LanceDB
table operations add, add with mode overwrite, and the two merge_insert
chains are embedded as pure list transformations; an error performs no
operation on the stored rows. -/
def write_records {α : Type} (keyOf : String → α → Option String)
    (write_disposition : String) (id_field_name : Option String)
    (remove_orphans : Bool) (records : List α) (tbl : Option (List α)) :
    Except WriteError (List α) :=
  match tbl with
  | none => .error (.transient transientOpenMsg)
  | some t =>
    if write_disposition = "append" ∨ write_disposition = "skip" then
      .ok (t ++ records)
    else if write_disposition = "replace" then
      .ok records
    else if write_disposition = "merge" then
      match id_field_name with
      | none => .error (.valueError missingIdFieldMsg)
      | some f =>
        if remove_orphans then .ok (deleteOrphanRows keyOf f t records)
        else .ok (upsertRows keyOf f t records)
    else
      .error (.terminal (unsupportedDispositionMsg write_disposition))

/-- The rows physically stored after a write_records call: an exception leaves
the table contents unchanged. -/
def resultingTable {α : Type} (orig : List α) (r : Except WriteError (List α)) : List α :=
  match r with
  | .ok t => t
  | .error _ => orig

/-- The error of a write_records result, when there is one. -/
def errorOf {α : Type} (r : Except WriteError (List α)) : Option WriteError :=
  match r with
  | .ok _ => none
  | .error e => some e

/-- One row of the _dlt_version bookkeeping table, as written by
update_schema_in_storage. The insertedAt field stands for the
str(pendulum.now()) insertion timestamp; its Nat order models the
chronological order of the ISO timestamp strings the code sorts by. -/
structure VersionRow where
  version : Nat
  engineVersion : Nat
  insertedAt : Nat
  schemaName : String
  versionHash : String
  schemaJson : String
  deriving DecidableEq

/-- The lookup idiom sorted(rows, key, reverse=True)[0] with the IndexError of
an empty candidate list mapped to none: sort by the key descending with a
stable sort and take the first row. -/
def latestBy {α : Type} (key : α → Nat) (l : List α) : Option α :=
  (l.insertionSort (fun a b => key b ≤ key a)).head?

/-- LanceDBClient.get_stored_schema_by_hash: filter the version table rows on
version_hash, sort by inserted_at descending, take the first; the IndexError
of an empty candidate list returns none. -/
def get_stored_schema_by_hash (rows : List VersionRow) (schema_hash : String) :
    Option VersionRow :=
  latestBy (fun r => r.insertedAt) (rows.filter (fun r => r.versionHash == schema_hash))

/-- LanceDBClient.get_stored_schema: the same lookup keyed on schema_name. -/
def get_stored_schema (rows : List VersionRow) (schema_name : String) :
    Option VersionRow :=
  latestBy (fun r => r.insertedAt) (rows.filter (fun r => r.schemaName == schema_name))

/-- One row of the _dlt_pipeline_state table. The loadId field stands for the
string _dlt_load_id column; its Nat order models the lexicographic order the
code sorts by. -/
structure StateRow where
  loadId : Nat
  pipelineName : String
  version : Nat
  engineVersion : Nat
  state : String
  createdAt : Nat
  versionHash : String
  deriving DecidableEq

/-- One row of the _dlt_loads table, restricted to the columns
get_stored_state consults. -/
structure LoadRow where
  loadId : Nat
  status : Nat
  deriving DecidableEq

/-- LanceDBClient.get_stored_state: the state rows of the pipeline are inner
joined on load id with the load rows whose status equals 0 (load completed),
the join is sorted by load id descending and its first row is taken; none
when the join is empty. The join is projected to its state side, the side
every field of the returned StateInfo is read from. -/
def get_stored_state (stateRows : List StateRow) (loadRows : List LoadRow)
    (pipeline_name : String) : Option StateRow :=
  let states := stateRows.filter (fun s => s.pipelineName == pipeline_name)
  let loads := loadRows.filter (fun l => l.status == 0)
  let joined := states.filter (fun s => loads.any (fun l => l.loadId == s.loadId))
  latestBy (fun s => s.loadId) joined

/-- A pyarrow field of a physical LanceDB table schema: name, datatype and
nullability. The datatype is an Option: none stands for the KeyError the type
mapper raises on an unsupported logical type, which never happens for the
supported types. -/
structure ArrowField where
  name : String
  ty : Option ArrowType
  nullable : Bool
  deriving DecidableEq

/-- A logical column of a dlt table schema; the name is already normalized by
the schema naming convention. -/
structure LogicalColumn where
  name : String
  columnType : TColumnType
  nullable : Bool
  deriving DecidableEq

/-- A logical dlt table: its normalized name and its ordered columns. -/
structure LogicalTable where
  name : String
  columns : List LogicalColumn
  deriving DecidableEq

/-- The part of a dlt Schema that the LanceDB schema update consumes: name,
version, engine version, content hash, serialized form, the write disposition
declared on its own version table, and the tables. -/
structure LogicalSchema where
  name : String
  version : Nat
  engineVersion : Nat
  versionHash : String
  serialized : String
  versionTableDisposition : String
  tables : List LogicalTable
  deriving DecidableEq

/-- Modelled from the spec: make_arrow_field_schema of
dlt/destinations/impl/lancedb/schema.py is not part of the given sources. Per
the spec the diff engine extends existing tables with nullable columns typed
via the TypeMapper, so the produced pyarrow field carries the mapped type and
is nullable. -/
def make_arrow_field_schema (caps : Capabilities) (c : LogicalColumn) : ArrowField :=
  ⟨c.name, to_db_type caps c.columnType, true⟩

/-- Modelled from the spec: make_arrow_table_schema of
dlt/destinations/impl/lancedb/schema.py is not part of the given sources. It
builds the full native schema of a newly created table from its logical
columns; the synthetic vector and id fields added for embedding tables are
omitted here, no claim depends on them. -/
def make_arrow_table_schema (caps : Capabilities) (t : LogicalTable) : List ArrowField :=
  t.columns.map (make_arrow_field_schema caps)

/-- Modelled from the spec: Schema.get_new_table_columns of the dlt core is
not part of the given sources. Per the spec it computes the logical columns
not present physically by normalized name (identifiers are already normalized
in this model). -/
def get_new_table_columns (t : LogicalTable) (existing : List ArrowField) :
    List LogicalColumn :=
  t.columns.filter (fun c => !(existing.any (fun f => f.name == c.name)))

/-- LanceDBClient.extend_lancedb_table_schema: add_columns appends every new
field and alter_columns then sets its nullability to the nullability of the
field schema; existing fields are untouched. -/
def extend_lancedb_table_schema (tbl : List ArrowField) (field_schemas : List ArrowField) :
    List ArrowField :=
  tbl ++ field_schemas

/-- The physical LanceDB dataset: qualified table name to pyarrow fields. -/
abbrev PhysicalStore := List (String × List ArrowField)

/-- get_storage_table existence and schema introspection, projected to the
field list: the first physical table of the given name, none when open_table
raises FileNotFoundError. -/
def lookupTable (phys : PhysicalStore) (n : String) : Option (List ArrowField) :=
  (phys.find? (fun p => p.1 == n)).map (fun p => p.2)

/-- One iteration of LanceDBClient._execute_schema_update for one logical
table: introspect the physical table, compute the logically new columns, and
when any exist either extend the existing table in place with their field
schemas or create the table from its full arrow schema; a table with no new
columns is left untouched and is not created. -/
def updateTableInPhysical (caps : Capabilities) (phys : PhysicalStore) (t : LogicalTable) :
    PhysicalStore :=
  match lookupTable phys t.name with
  | some existing =>
    if (get_new_table_columns t existing).isEmpty then phys
    else
      phys.map (fun p =>
        if p.1 == t.name
        then (p.1, extend_lancedb_table_schema p.2
          ((get_new_table_columns t existing).map (make_arrow_field_schema caps)))
        else p)
  | none =>
    if t.columns.isEmpty then phys
    else phys ++ [(t.name, make_arrow_table_schema caps t)]

/-- The per-table loop of LanceDBClient._execute_schema_update over every
table of the schema. -/
def apply_schema_tables (caps : Capabilities) (tables : List LogicalTable)
    (phys : PhysicalStore) : PhysicalStore :=
  tables.foldl (updateTableInPhysical caps) phys

/-- The destination-resident state the LanceDB client manipulates: the
physical tables and the rows of the version bookkeeping table. -/
structure ClientState where
  physical : PhysicalStore
  versionRows : List VersionRow
  deriving DecidableEq

/-- The record update_schema_in_storage builds: schema version, engine
version, insertion timestamp, schema name, version hash and serialized
schema. -/
def newVersionRow (sch : LogicalSchema) (now : Nat) : VersionRow :=
  ⟨sch.version, sch.engineVersion, now, sch.name, sch.versionHash, sch.serialized⟩

/-- LanceDBClient.update_schema_in_storage: write the single version record
through write_records under the write disposition declared on the schema own
version table. -/
def update_schema_in_storage (sch : LogicalSchema) (now : Nat) (rows : List VersionRow) :
    Except WriteError (List VersionRow) :=
  write_records (fun _ _ => none) sch.versionTableDisposition none false
    [newVersionRow sch now] (some rows)

/-- LanceDBClient._execute_schema_update: apply the per-table delta for every
table of the schema, then record the new schema version in storage. -/
def execute_schema_update (caps : Capabilities) (sch : LogicalSchema) (now : Nat)
    (st : ClientState) : Except WriteError ClientState :=
  let phys := apply_schema_tables caps sch.tables st.physical
  (update_schema_in_storage sch now st.versionRows).map (fun rows => ⟨phys, rows⟩)

/-- LanceDBClient.update_stored_schema: look the current schema version hash
up in storage; when a stored record with that hash exists nothing is changed
and nothing is written, otherwise the schema update is executed. -/
def update_stored_schema (caps : Capabilities) (sch : LogicalSchema) (now : Nat)
    (st : ClientState) : Except WriteError ClientState :=
  match get_stored_schema_by_hash st.versionRows sch.versionHash with
  | some _ => .ok st
  | none => execute_schema_update caps sch now st

/-- One entry of the table lineage list LanceDBRemoveOrphansJob.run builds
from its reference file: the parent hint of the schema table, the table name
parsed from the file name, and the batch file path. -/
structure LineageEntry where
  parent : Option String
  name : String
  path : String
  deriving DecidableEq

/-- A merge write with orphan removal issued by the job: the target table, the
merge key column, and the batch file whose contents become the payload. -/
structure MergeWrite where
  tableName : String
  idFieldName : String
  payloadPath : String
  deriving DecidableEq

/-- LanceDBRemoveOrphansJob.get_parent_path: the path of the first lineage
entry whose table name equals the argument; next on an exhausted generator
raises StopIteration, modelled as none. -/
def get_parent_path (table_lineage : List LineageEntry) (table : String) : Option String :=
  (table_lineage.find? (fun entry => entry.name == table)).map (fun entry => entry.path)

/-- The write LanceDBRemoveOrphansJob.run issues for one lineage entry: a root
table (no parent hint) is merged on the _dlt_id column with its own batch file
as payload; a child table is merged on the _dlt_parent_id column with the file
of its parent table resolved through get_parent_path; none models the
StopIteration escaping when the parent file is absent from the lineage. -/
def orphanWriteFor (table_lineage : List LineageEntry) (e : LineageEntry) : Option MergeWrite :=
  match e.parent with
  | none => some ⟨e.name, "_dlt_id", e.path⟩
  | some p => (get_parent_path table_lineage p).map (fun fp => ⟨e.name, "_dlt_parent_id", fp⟩)

/-- The loop of LanceDBRemoveOrphansJob.run over a suffix of the lineage: the
merge writes issued in order, and whether the loop aborted with an error. The
first entry whose payload file cannot be resolved stops the loop; the writes
already issued stay issued. -/
def runOrphanWrites (table_lineage : List LineageEntry) :
    List LineageEntry → List MergeWrite × Bool
  | [] => ([], false)
  | e :: rest =>
    match orphanWriteFor table_lineage e with
    | none => ([], true)
    | some w =>
      let r := runOrphanWrites table_lineage rest
      (w :: r.1, r.2)

/-- LanceDBRemoveOrphansJob.run, projected to the sequence of merge writes it
performs; every write goes through write_records with disposition merge and
remove_orphans set. -/
def runRemoveOrphansJob (table_lineage : List LineageEntry) : List MergeWrite × Bool :=
  runOrphanWrites table_lineage table_lineage

/-- A pyarrow scalar value inside an orphan removal payload column. -/
inductive ArrowValue where
  | str (s : String)
  | int (n : Int)
  | floatV (n : Int)
  | boolV (b : Bool)
  | dateV (daysSinceEpoch : Int)
  | timestampV (t : Int)
  | nullV
  deriving DecidableEq

/-- Modelled from the spec: get_default_arrow_value of
dlt/destinations/impl/lancedb/utils.py is not part of the given sources. Per
the spec the per-field defaults are type specific (empty string, zero, epoch
date and so on) and a field type without a default raises a ValueError. -/
def get_default_arrow_value : Option ArrowType → Except String ArrowValue
  | some .string => .ok (.str "")
  | some .int64 => .ok (.int 0)
  | some .float64 => .ok (.floatV 0)
  | some .boolT => .ok (.boolV false)
  | some .date32 => .ok (.dateV 0)
  | some (.timestampTz _) => .ok (.timestampV 0)
  | _ => .error "Unsupported data type"

/-- One column of an in-memory arrow payload table: its field and its values,
one per payload row. -/
structure PayloadColumn where
  field : ArrowField
  values : List ArrowValue
  deriving DecidableEq

/-- The schema difference computed by LanceDBRemoveOrphansJob.run: the fields
of the target table schema that are not fields of the payload schema, under
pyarrow field equality (name, type and nullability). -/
def schemaDifference (target : List ArrowField) (payload : List PayloadColumn) :
    List ArrowField :=
  target.filter (fun f => !(payload.any (fun c => c.field == f)))

/-- The column the job appends for one missing field: a column of the type
specific default value, or, when producing the default raises a ValueError, a
column of nulls together with a logged warning; never an error. -/
def paddingColumn (f : ArrowField) (num_rows : Nat) : PayloadColumn :=
  match get_default_arrow_value f.ty with
  | .ok v => ⟨f, List.replicate num_rows v⟩
  | .error _ => ⟨f, List.replicate num_rows .nullV⟩

/-- The padding loop of LanceDBRemoveOrphansJob.run: one column appended per
field of the schema difference. -/
def padPayload (target : List ArrowField) (payload : List PayloadColumn) (num_rows : Nat) :
    List PayloadColumn :=
  payload ++ (schemaDifference target payload).map (fun f => paddingColumn f num_rows)

/-- The payload actually handed to the merge write: the padded payload with
the additional empty-string id column appended right before the write_records
call. -/
def orphanPayload (target : List ArrowField) (payload : List PayloadColumn)
    (num_rows : Nat) (id_field_name : String) : List PayloadColumn :=
  padPayload target payload num_rows
    ++ [⟨⟨id_field_name, some .string, true⟩, List.replicate num_rows (.str "")⟩]

namespace Postgres

/-- A postgres column schema restricted to what create_load_job consults: its
name and the x-postgres-geometry hint. -/
structure PgColumn where
  name : String
  geometry : Bool
  deriving DecidableEq

/-- The load job kinds create_load_job can produce. -/
inductive PgJob where
  | geometryInsertValuesJob
  | csvCopyJob
  | insertValuesJob
  deriving DecidableEq

/-- The error create_load_job can raise: a TerminalValueError, which the dlt
load machinery never retries. -/
inductive PgError where
  | terminalValueError (msg : String)
  deriving DecidableEq

/-- The message of the TerminalValueError raised for a non insert_values file
on a geometry table. -/
def geometryCsvMsg : String :=
  "CSV bulk loading is not supported for tables with geometry columns."

/-- The Python str.endswith check on file paths, modelled executably on the
character list of the string. -/
def strEndsWith (s suffix : String) : Bool :=
  suffix.data.isSuffixOf s.data

/-- PostgresClient.create_load_job. A table with at least one geometry-hinted
column accepts only insert_values files, returning the geometry-aware insert
job, and raises a TerminalValueError for any other file; any other table
delegates to the InsertValuesJobClient base class (not part of the given
sources, its result passed in as super_job) and falls back to the csv copy
job for csv files the base class did not handle. -/
def create_load_job (columns : List PgColumn) (file_path : String)
    (super_job : Option PgJob) : Except PgError (Option PgJob) :=
  if columns.any (fun c => c.geometry) then
    if strEndsWith file_path "insert_values" then .ok (some .geometryInsertValuesJob)
    else .error (.terminalValueError geometryCsvMsg)
  else
    match super_job with
    | none => if strEndsWith file_path "csv" then .ok (some .csvCopyJob) else .ok none
    | some j => .ok (some j)

end Postgres

/-- A three-level lineage group: root tblA, child tblB of tblA, grandchild
tblC of tblB, each with its own batch file. -/
def linThreeLevel : List LineageEntry :=
  [⟨none, "tblA", "fileA"⟩, ⟨some "tblA", "tblB", "fileB"⟩, ⟨some "tblB", "tblC", "fileC"⟩]

/-- A lineage group whose root file is present but whose child references a
parent table absent from the group. -/
def linMissingParent : List LineageEntry :=
  [⟨none, "tblA", "fileA"⟩, ⟨some "tblZ", "tblB", "fileB"⟩]

/-- A concrete capability set: timestamp precision 6 (microseconds), default
decimal precision 38 and scale 9, wei pair (76, 0). -/
def caps0 : Capabilities := ⟨6, 38, 9, (76, 0)⟩

/-- Version rows for the latest-wins witness: hash H1 inserted at timestamps
10 and 50, hash H2 inserted at timestamp 30. -/
def rowsH : List VersionRow :=
  [⟨1, 9, 10, "s", "H1", "j1"⟩, ⟨2, 9, 50, "s", "H1", "j2"⟩, ⟨3, 9, 30, "s", "H2", "j3"⟩]

/-- The most recently inserted H1 row of rowsH. -/
def rowH1 : VersionRow := ⟨2, 9, 50, "s", "H1", "j2"⟩

/-- State rows for the stored-state witness: pipeline p wrote state at load
ids 4 and 9, another pipeline q at load id 12. -/
def stateRows0 : List StateRow :=
  [⟨4, "p", 1, 9, "s4", 40, "h4"⟩, ⟨9, "p", 2, 9, "s9", 90, "h9"⟩,
    ⟨12, "q", 3, 9, "s12", 120, "h12"⟩]

/-- Load rows for the stored-state witness: loads 4 and 12 completed with
status 0, load 9 not completed. -/
def loadRows0 : List LoadRow := [⟨4, 0⟩, ⟨9, 1⟩, ⟨12, 0⟩]

/-- The expected stored state for pipeline p: its row at load id 9 joins no
completed load, so the row at load id 4 is the most recent completed one. -/
def stateRow4 : StateRow := ⟨4, "p", 1, 9, "s4", 40, "h4"⟩

/-- A schema for the idempotent-upgrade witness: no tables, version hash HX,
skip disposition on the version table. -/
def sch0 : LogicalSchema := ⟨"s", 1, 9, "HX", "ser", "skip", []⟩

/-- An empty client state. -/
def st0c : ClientState := ⟨[], []⟩

/-- A logical table for the additive-evolution witness: columns a and c, of
which only c is new relative to physT. -/
def tableT : LogicalTable :=
  ⟨"t", [⟨"a", ⟨.bigint, none, none⟩, true⟩, ⟨"c", ⟨.text, none, none⟩, true⟩]⟩

/-- The physical fields of table t before the update: columns a and b. -/
def fieldsT : List ArrowField := [⟨"a", some .int64, true⟩, ⟨"b", some .string, true⟩]

/-- A physical store holding only table t with fields a and b. -/
def physT : PhysicalStore := [("t", fieldsT)]

/-- Target fields for the padding witness: a string field x with a
type-specific default, and a decimal field y without one. -/
def targetFields : List ArrowField :=
  [⟨"x", some .string, true⟩, ⟨"y", some (.decimal128 5 2), true⟩]

/-- The loop of LanceDBRemoveOrphansJob.run issues exactly the writes of the
resolvable prefix of the lineage and reports an error exactly when some entry
is not resolvable. -/
theorem runOrphanWrites_eq (lin es : List LineageEntry) :
    runOrphanWrites lin es
      = ((es.takeWhile (fun e => (orphanWriteFor lin e).isSome)).map
          (fun e => (orphanWriteFor lin e).getD ⟨"", "", ""⟩),
         !es.all (fun e => (orphanWriteFor lin e).isSome)) := by
  induction es with
  | nil => rfl
  | cons e rest ih =>
    cases h : orphanWriteFor lin e with
    | none => simp [runOrphanWrites, h, List.takeWhile_cons, List.all_cons]
    | some w => simp [runOrphanWrites, h, List.takeWhile_cons, List.all_cons, ih]

/-- C1 amended: in the orphan-removal lineage join a root table is merged
keyed on _dlt_id using its own batch file as payload; every child table is
merged keyed on _dlt_parent_id and its payload is the batch file of its
immediate parent table (for a direct child of the root this is the root file),
resolved deterministically as the first matching entry when walking the
lineage list once; the job issues the writes for the longest prefix of the
lineage whose entries all resolve, and aborts with an error at the first
child whose parent file is not in the lineage group, issuing no write from
that entry on (writes already issued for earlier tables are not undone). -/
theorem claim_C1_amended (lin : List LineageEntry) (n p pr : String) :
    orphanWriteFor lin ⟨none, n, p⟩ = some ⟨n, "_dlt_id", p⟩ ∧
      orphanWriteFor lin ⟨some pr, n, p⟩
        = (get_parent_path lin pr).map (fun fp => ⟨n, "_dlt_parent_id", fp⟩) ∧
      (runRemoveOrphansJob lin).1
        = (lin.takeWhile (fun e => (orphanWriteFor lin e).isSome)).map
            (fun e => (orphanWriteFor lin e).getD ⟨"", "", ""⟩) ∧
      (runRemoveOrphansJob lin).2
        = !lin.all (fun e => (orphanWriteFor lin e).isSome) := by
  refine ⟨rfl, rfl, ?_, ?_⟩ <;> rw [runRemoveOrphansJob, runOrphanWrites_eq]

/-- C1 counterexample: on the three-level lineage the grandchild tblC is
merged with the batch file of its parent tblB, not with the root file fileA,
so the payload of a child is not always the root batch file; and on the
lineage with the unresolvable child the job errors only after the merge write
for the root has already been issued, so deletes are partial. -/
theorem claim_C1_counterexample :
    runRemoveOrphansJob linThreeLevel
        = ([⟨"tblA", "_dlt_id", "fileA"⟩, ⟨"tblB", "_dlt_parent_id", "fileA"⟩,
            ⟨"tblC", "_dlt_parent_id", "fileB"⟩], false) ∧
      "fileB" ≠ "fileA" ∧
      runRemoveOrphansJob linMissingParent = ([⟨"tblA", "_dlt_id", "fileA"⟩], true) := by
  refine ⟨by decide, by decide, by decide⟩

/-- C4 amended: the round trip of the LanceDB type mapper preserves data_type
for text, double, bool, bigint, binary and date (precision and scale come back
as none); complex comes back as text; timestamp and time come back with the
capability-declared timestamp precision regardless of the declared column
precision, and with no scale; wei comes back as wei with no precision and
scale; a decimal comes back as wei when its effective precision and scale
(capability defaults applied) equal the capability wei pair, and otherwise as
a decimal carrying the effective precision and scale. -/
theorem claim_C4_amended (caps : Capabilities) (p s : Option Nat)
    (hp : caps.timestampPrecision = 0 ∨ caps.timestampPrecision = 3 ∨
      caps.timestampPrecision = 6 ∨ caps.timestampPrecision = 9) :
    roundTrip caps ⟨.text, none, none⟩ = some ⟨.text, none, none⟩ ∧
      roundTrip caps ⟨.double, none, none⟩ = some ⟨.double, none, none⟩ ∧
      roundTrip caps ⟨.boolType, none, none⟩ = some ⟨.boolType, none, none⟩ ∧
      roundTrip caps ⟨.bigint, none, none⟩ = some ⟨.bigint, none, none⟩ ∧
      roundTrip caps ⟨.binary, none, none⟩ = some ⟨.binary, none, none⟩ ∧
      roundTrip caps ⟨.date, none, none⟩ = some ⟨.date, none, none⟩ ∧
      roundTrip caps ⟨.complex, none, none⟩ = some ⟨.text, none, none⟩ ∧
      roundTrip caps ⟨.timestamp, p, s⟩
        = some ⟨.timestamp, some caps.timestampPrecision, none⟩ ∧
      roundTrip caps ⟨.time, p, s⟩ = some ⟨.time, some caps.timestampPrecision, none⟩ ∧
      roundTrip caps ⟨.wei, p, s⟩ = some ⟨.wei, none, none⟩ ∧
      roundTrip caps ⟨.decimal, p, s⟩
        = (if (p.getD caps.decimalPrecision, s.getD caps.decimalScale) = caps.weiPrecision
           then some ⟨.wei, none, none⟩
           else some ⟨.decimal, some (p.getD caps.decimalPrecision),
             some (s.getD caps.decimalScale)⟩) := by
  refine ⟨rfl, rfl, rfl, rfl, rfl, rfl, rfl, ?_, ?_, ?_, ?_⟩
  · rcases hp with h | h | h | h <;>
      simp [roundTrip, to_db_type, to_db_datetime_type, TIMESTAMP_PRECISION_TO_UNIT,
        UNIT_TO_TIMESTAMP_PRECISION, from_db_type, h]
  · rcases hp with h | h | h | h <;>
      simp [roundTrip, to_db_type, to_db_time_type, TIMESTAMP_PRECISION_TO_UNIT,
        UNIT_TO_TIMESTAMP_PRECISION, from_db_type, h]
  · simp [roundTrip, to_db_type, from_db_type]
  · rfl

/-- C4 counterexample: complex is a supported logical type but round trips to
text; a timestamp with declared precision 3 round trips to precision 6 under
a capability timestamp precision of 6; and a decimal whose precision and
scale pair equals the capability wei pair round trips to wei, so the claimed
exact preservation of data_type, precision and scale fails. -/
theorem claim_C4_counterexample :
    (roundTrip caps0 ⟨.complex, none, none⟩ = some ⟨.text, none, none⟩ ∧
      DataType.text ≠ DataType.complex) ∧
      (roundTrip caps0 ⟨.timestamp, some 3, none⟩ = some ⟨.timestamp, some 6, none⟩ ∧
        (6 : Nat) ≠ 3) ∧
      (roundTrip caps0 ⟨.decimal, some 76, some 0⟩ = some ⟨.wei, none, none⟩ ∧
        DataType.wei ≠ DataType.decimal) := by
  refine ⟨⟨by decide, by decide⟩, ⟨by decide, by decide⟩, ⟨by decide, by decide⟩⟩

/-- Witness for C4 amended at the concrete capability set caps0 and a
timestamp column of declared precision 1. -/
theorem claim_C4_amended_witness :
    (caps0.timestampPrecision = 0 ∨ caps0.timestampPrecision = 3 ∨
      caps0.timestampPrecision = 6 ∨ caps0.timestampPrecision = 9) ∧
      roundTrip caps0 ⟨.timestamp, some 1, some 2⟩
        = some ⟨.timestamp, some caps0.timestampPrecision, none⟩ :=
  ⟨by decide, (claim_C4_amended caps0 (some 1) (some 2) (by decide)).2.2.2.2.2.2.2.1⟩

/-- C5: write_records on an open table with a write disposition other than
append, skip, replace or merge raises the DestinationTerminalException that
is never retried, and performs no write: the table contents are unchanged. -/
theorem claim_C5 {α : Type} (keyOf : String → α → Option String)
    (write_disposition : String) (id_field_name : Option String)
    (remove_orphans : Bool) (records tbl : List α)
    (h1 : write_disposition ≠ "append") (h2 : write_disposition ≠ "skip")
    (h3 : write_disposition ≠ "replace") (h4 : write_disposition ≠ "merge") :
    write_records keyOf write_disposition id_field_name remove_orphans records (some tbl)
        = .error (.terminal (unsupportedDispositionMsg write_disposition)) ∧
      resultingTable tbl
        (write_records keyOf write_disposition id_field_name remove_orphans records (some tbl))
        = tbl := by
  have hw : write_records keyOf write_disposition id_field_name remove_orphans records
      (some tbl) = .error (.terminal (unsupportedDispositionMsg write_disposition)) := by
    simp only [write_records]
    rw [if_neg (not_or.mpr ⟨h1, h2⟩), if_neg h3, if_neg h4]
  exact ⟨hw, by rw [hw]; rfl⟩

/-- Witness for C5 at the unsupported disposition foo. -/
theorem claim_C5_witness :
    (("foo" ≠ "append") ∧ ("foo" ≠ "skip") ∧ ("foo" ≠ "replace") ∧ ("foo" ≠ "merge")) ∧
      (write_records (fun _ _ => (none : Option String)) "foo" none false [(1 : Nat)]
          (some [2]) = .error (.terminal (unsupportedDispositionMsg "foo")) ∧
        resultingTable [2]
          (write_records (fun _ _ => (none : Option String)) "foo" none false [(1 : Nat)]
            (some [2])) = [2]) :=
  ⟨⟨by decide, by decide, by decide, by decide⟩,
    claim_C5 (fun _ _ => (none : Option String)) "foo" none false [(1 : Nat)] [2]
      (by decide) (by decide) (by decide) (by decide)⟩

/-- C6 amended: a merge without id_field_name raises the builtin ValueError
documented in the write_records docstring, an exception outside the dlt
destination exception taxonomy, and performs no write. -/
theorem claim_C6_amended {α : Type} (keyOf : String → α → Option String)
    (remove_orphans : Bool) (records tbl : List α) :
    write_records keyOf "merge" none remove_orphans records (some tbl)
        = .error (.valueError missingIdFieldMsg) ∧
      resultingTable tbl
        (write_records keyOf "merge" none remove_orphans records (some tbl)) = tbl := by
  constructor <;> rfl

/-- C6 counterexample: at a concrete merge call without id_field the raised
exception is the builtin ValueError, which is not a member of the dlt
destination exception taxonomy, against the claim that a core-taxonomy
terminal error is raised. -/
theorem claim_C6_counterexample :
    errorOf (write_records (fun _ _ => (none : Option String)) "merge" none false
        [(1 : Nat)] (some [2])) = some (.valueError missingIdFieldMsg) ∧
      (errorOf (write_records (fun _ _ => (none : Option String)) "merge" none false
        [(1 : Nat)] (some [2]))).map WriteError.inTaxonomy = some false := by
  constructor <;> rfl

/-- C10: on a table with at least one geometry-hinted column create_load_job
returns the geometry-aware insert_values job exactly for file paths ending in
insert_values, and raises a TerminalValueError, creating no job, for every
other file. -/
theorem claim_C10 (columns : List Postgres.PgColumn) (file_path : String)
    (super_job : Option Postgres.PgJob)
    (hg : columns.any (fun c => c.geometry) = true) :
    (Postgres.strEndsWith file_path "insert_values" = true →
        Postgres.create_load_job columns file_path super_job
          = .ok (some .geometryInsertValuesJob)) ∧
      (Postgres.strEndsWith file_path "insert_values" = false →
        Postgres.create_load_job columns file_path super_job
          = .error (.terminalValueError Postgres.geometryCsvMsg)) := by
  unfold Postgres.create_load_job
  rw [if_pos hg]
  constructor
  · intro h; rw [if_pos h]
  · intro h; rw [if_neg (by simp [h])]

/-- Witness for C10 on a one-column geometry table, once with an
insert_values file and once with a csv file. -/
theorem claim_C10_witness :
    ([⟨"geo", true⟩] : List Postgres.PgColumn).any (fun c => c.geometry) = true ∧
      Postgres.create_load_job [⟨"geo", true⟩] "data.insert_values" none
        = .ok (some .geometryInsertValuesJob) ∧
      Postgres.create_load_job [⟨"geo", true⟩] "data.csv" none
        = .error (.terminalValueError Postgres.geometryCsvMsg) :=
  ⟨by decide,
    (claim_C10 [⟨"geo", true⟩] "data.insert_values" none (by decide)).1 (by decide),
    (claim_C10 [⟨"geo", true⟩] "data.csv" none (by decide)).2 (by decide)⟩

/-- The lookup idiom returns none exactly on an empty candidate list. -/
theorem latestBy_eq_none_iff {α : Type} (key : α → Nat) (l : List α) :
    latestBy key l = none ↔ l = [] := by
  unfold latestBy
  rw [List.head?_eq_none_iff]
  constructor
  · intro h
    have hp := List.perm_insertionSort (fun a b => key b ≤ key a) l
    rw [h] at hp
    exact hp.symm.eq_nil
  · intro h
    rw [h]
    rfl

/-- A row returned by the lookup idiom is a candidate and carries the greatest
key among the candidates. -/
theorem latestBy_eq_some {α : Type} (key : α → Nat) (l : List α) (r : α)
    (h : latestBy key l = some r) : r ∈ l ∧ ∀ x ∈ l, key x ≤ key r := by
  unfold latestBy at h
  haveI : IsTotal α (fun a b => key b ≤ key a) := ⟨fun a b => le_total (key b) (key a)⟩
  haveI : IsTrans α (fun a b => key b ≤ key a) := ⟨fun a b c hab hbc => le_trans hbc hab⟩
  have hperm := List.perm_insertionSort (fun a b => key b ≤ key a) l
  have hsorted := List.sorted_insertionSort (fun a b => key b ≤ key a) l
  cases hms : l.insertionSort (fun a b => key b ≤ key a) with
  | nil =>
    rw [hms] at h
    simp at h
  | cons hd tl =>
    rw [hms] at h hperm hsorted
    rw [List.head?_cons, Option.some_inj] at h
    subst h
    refine ⟨hperm.mem_iff.mp (List.mem_cons_self _ _), fun x hx => ?_⟩
    rcases List.mem_cons.mp (hperm.mem_iff.mpr hx) with hEq | hTl
    · subst hEq
      exact le_refl _
    · exact (List.sorted_cons.mp hsorted).1 x hTl

/-- The hash lookup misses exactly when no row carries the hash. -/
theorem get_stored_schema_by_hash_none_iff (rows : List VersionRow) (h : String) :
    get_stored_schema_by_hash rows h = none ↔ ∀ x ∈ rows, x.versionHash ≠ h := by
  unfold get_stored_schema_by_hash
  rw [latestBy_eq_none_iff, List.filter_eq_nil_iff]
  simp

/-- The name lookup misses exactly when no row carries the schema name. -/
theorem get_stored_schema_none_iff (rows : List VersionRow) (n : String) :
    get_stored_schema rows n = none ↔ ∀ x ∈ rows, x.schemaName ≠ n := by
  unfold get_stored_schema
  rw [latestBy_eq_none_iff, List.filter_eq_nil_iff]
  simp

/-- C8: for get_stored_schema_by_hash and get_stored_schema, a returned row is
a matching row with the greatest insertion timestamp among the matching rows,
and the lookups return none, rather than raising, exactly when no row
matches. -/
theorem claim_C8 (rows : List VersionRow) (h n : String) (r q : VersionRow) :
    (get_stored_schema_by_hash rows h = some r →
        r ∈ rows ∧ r.versionHash = h ∧
          ∀ x ∈ rows, x.versionHash = h → x.insertedAt ≤ r.insertedAt) ∧
      (get_stored_schema_by_hash rows h = none ↔ ∀ x ∈ rows, x.versionHash ≠ h) ∧
      (get_stored_schema rows n = some q →
        q ∈ rows ∧ q.schemaName = n ∧
          ∀ x ∈ rows, x.schemaName = n → x.insertedAt ≤ q.insertedAt) ∧
      (get_stored_schema rows n = none ↔ ∀ x ∈ rows, x.schemaName ≠ n) := by
  refine ⟨?_, get_stored_schema_by_hash_none_iff rows h, ?_,
    get_stored_schema_none_iff rows n⟩
  · intro hs
    unfold get_stored_schema_by_hash at hs
    obtain ⟨hmem, hmax⟩ := latestBy_eq_some _ _ _ hs
    obtain ⟨hr, hrh⟩ := List.mem_filter.mp hmem
    refine ⟨hr, by simpa using hrh, fun x hx hxh => ?_⟩
    exact hmax x (List.mem_filter.mpr ⟨hx, by simp [hxh]⟩)
  · intro hs
    unfold get_stored_schema at hs
    obtain ⟨hmem, hmax⟩ := latestBy_eq_some _ _ _ hs
    obtain ⟨hr, hrh⟩ := List.mem_filter.mp hmem
    refine ⟨hr, by simpa using hrh, fun x hx hxh => ?_⟩
    exact hmax x (List.mem_filter.mpr ⟨hx, by simp [hxh]⟩)

/-- Witness for C8: among two H1 rows and one H2 row the returned H1 row is
the most recently inserted H1 row. -/
theorem claim_C8_witness :
    rowH1 ∈ rowsH ∧ rowH1.versionHash = "H1" ∧
      ∀ x ∈ rowsH, x.versionHash = "H1" → x.insertedAt ≤ rowH1.insertedAt :=
  (claim_C8 rowsH "H1" "s" rowH1 rowH1).1 (by decide)

/-- The join condition of get_stored_state: a state row joins exactly when
some completed load row carries its load id. -/
theorem joinedLoad_iff (loadRows : List LoadRow) (x : StateRow) :
    (loadRows.filter (fun l => l.status == 0)).any (fun l => l.loadId == x.loadId) = true
      ↔ ∃ l ∈ loadRows, l.status = 0 ∧ l.loadId = x.loadId := by
  rw [List.any_eq_true]
  constructor
  · rintro ⟨l, hl, hid⟩
    obtain ⟨hl2, hst⟩ := List.mem_filter.mp hl
    exact ⟨l, hl2, by simpa using hst, by simpa using hid⟩
  · rintro ⟨l, hl, hst, hid⟩
    exact ⟨l, List.mem_filter.mpr ⟨hl, by simp [hst]⟩, by simp [hid]⟩

/-- C9: get_stored_state returns a state row of the pipeline that joins a
completed load (status 0) on load id and has the greatest load id among all
such rows, and returns none exactly when the inner join is empty. -/
theorem claim_C9 (stateRows : List StateRow) (loadRows : List LoadRow)
    (pipeline_name : String) (r : StateRow) :
    (get_stored_state stateRows loadRows pipeline_name = some r →
        r ∈ stateRows ∧ r.pipelineName = pipeline_name ∧
          (∃ l ∈ loadRows, l.status = 0 ∧ l.loadId = r.loadId) ∧
          ∀ x ∈ stateRows, x.pipelineName = pipeline_name →
            (∃ l ∈ loadRows, l.status = 0 ∧ l.loadId = x.loadId) → x.loadId ≤ r.loadId) ∧
      (get_stored_state stateRows loadRows pipeline_name = none ↔
        ∀ x ∈ stateRows, x.pipelineName = pipeline_name →
          ¬∃ l ∈ loadRows, l.status = 0 ∧ l.loadId = x.loadId) := by
  constructor
  · intro hs
    simp only [get_stored_state] at hs
    obtain ⟨hmem, hmax⟩ := latestBy_eq_some _ _ _ hs
    obtain ⟨hmem1, hjoin⟩ := List.mem_filter.mp hmem
    obtain ⟨hr, hpn⟩ := List.mem_filter.mp hmem1
    refine ⟨hr, by simpa using hpn, (joinedLoad_iff loadRows r).mp hjoin, ?_⟩
    intro x hx hxpn hxjoin
    exact hmax x (List.mem_filter.mpr ⟨List.mem_filter.mpr ⟨hx, by simp [hxpn]⟩,
      (joinedLoad_iff loadRows x).mpr hxjoin⟩)
  · simp only [get_stored_state]
    rw [latestBy_eq_none_iff, List.filter_eq_nil_iff]
    constructor
    · intro hall x hx hpn hjoin
      exact hall x (List.mem_filter.mpr ⟨hx, by simp [hpn]⟩)
        ((joinedLoad_iff loadRows x).mpr hjoin)
    · intro hall x hx
      obtain ⟨hx2, hpn⟩ := List.mem_filter.mp hx
      intro hjoinB
      exact hall x hx2 (by simpa using hpn) ((joinedLoad_iff loadRows x).mp hjoinB)

/-- Witness for C9: pipeline p has state rows at load ids 4 and 9, only load 4
is completed, so the returned row is the one at load id 4. -/
theorem claim_C9_witness :
    stateRow4 ∈ stateRows0 ∧ stateRow4.pipelineName = "p" ∧
      (∃ l ∈ loadRows0, l.status = 0 ∧ l.loadId = stateRow4.loadId) ∧
      ∀ x ∈ stateRows0, x.pipelineName = "p" →
        (∃ l ∈ loadRows0, l.status = 0 ∧ l.loadId = x.loadId) →
        x.loadId ≤ stateRow4.loadId :=
  (claim_C9 stateRows0 loadRows0 "p" stateRow4).1 (by decide)

/-- C2: when a stored schema record with the current version hash already
exists, update_stored_schema changes no physical table and writes no version
record; and starting from a storage without the hash, running the upgrade
twice stores exactly one version record with that hash, the second run
returning the state produced by the first run unchanged. -/
theorem claim_C2 (caps : Capabilities) (sch : LogicalSchema) (now1 now2 : Nat)
    (st : ClientState) (hdisp : sch.versionTableDisposition = "skip") :
    (∀ st0 : ClientState, (∃ r ∈ st0.versionRows, r.versionHash = sch.versionHash) →
        update_stored_schema caps sch now1 st0 = .ok st0) ∧
      (st.versionRows.countP (fun r => r.versionHash == sch.versionHash) = 0 →
        ∃ st1 : ClientState, update_stored_schema caps sch now1 st = .ok st1 ∧
          st1.physical = apply_schema_tables caps sch.tables st.physical ∧
          st1.versionRows.countP (fun r => r.versionHash == sch.versionHash) = 1 ∧
          update_stored_schema caps sch now2 st1 = .ok st1) := by
  constructor
  · rintro st0 ⟨r, hr, hrh⟩
    unfold update_stored_schema
    cases hg : get_stored_schema_by_hash st0.versionRows sch.versionHash with
    | some w => rfl
    | none => exact absurd hrh ((get_stored_schema_by_hash_none_iff _ _).mp hg r hr)
  · intro hcount
    have hnone : get_stored_schema_by_hash st.versionRows sch.versionHash = none :=
      (get_stored_schema_by_hash_none_iff _ _).mpr
        (fun x hx => by simpa using List.countP_eq_zero.mp hcount x hx)
    refine ⟨⟨apply_schema_tables caps sch.tables st.physical,
      st.versionRows ++ [newVersionRow sch now1]⟩, ?_, rfl, ?_, ?_⟩
    · simp only [update_stored_schema, hnone, execute_schema_update,
        update_schema_in_storage, hdisp, write_records]
      simp [Except.map]
    · rw [List.countP_append, hcount]
      simp [List.countP_cons, newVersionRow]
    · cases hg : get_stored_schema_by_hash
        (st.versionRows ++ [newVersionRow sch now1]) sch.versionHash with
      | none =>
        have hmem : newVersionRow sch now1 ∈ st.versionRows ++ [newVersionRow sch now1] :=
          List.mem_append_right _ (List.mem_cons_self _ _)
        exact absurd rfl ((get_stored_schema_by_hash_none_iff _ _).mp hg _ hmem)
      | some w =>
        simp only [update_stored_schema]
        rw [hg]

/-- Witness for C2 on the empty client state and the concrete schema sch0. -/
theorem claim_C2_witness :
    sch0.versionTableDisposition = "skip" ∧
      st0c.versionRows.countP (fun r => r.versionHash == sch0.versionHash) = 0 ∧
      ∃ st1 : ClientState, update_stored_schema caps0 sch0 5 st0c = .ok st1 ∧
        st1.physical = apply_schema_tables caps0 sch0.tables st0c.physical ∧
        st1.versionRows.countP (fun r => r.versionHash == sch0.versionHash) = 1 ∧
        update_stored_schema caps0 sch0 7 st1 = .ok st1 :=
  ⟨rfl, by decide, (claim_C2 caps0 sch0 5 7 st0c rfl).2 (by decide)⟩

/-- A lookup over the map-rewrite of the extension step: keys are unchanged,
so the first matching entry is the same one, with its field list extended
exactly when its key is the updated table name. -/
theorem lookupTable_map_extend (phys : PhysicalStore) (tn : String)
    (fields : List ArrowField) (n : String) :
    lookupTable (phys.map (fun p =>
        if p.1 == tn then (p.1, extend_lancedb_table_schema p.2 fields) else p)) n
      = (phys.find? (fun p => p.1 == n)).map
          (fun p => if p.1 == tn then extend_lancedb_table_schema p.2 fields else p.2) := by
  unfold lookupTable
  rw [List.find?_map]
  have hcomp : ((fun p : String × List ArrowField => p.1 == n) ∘
      (fun p : String × List ArrowField =>
        if p.1 == tn then (p.1, extend_lancedb_table_schema p.2 fields) else p))
      = (fun p : String × List ArrowField => p.1 == n) := by
    funext p
    by_cases hp : p.1 == tn <;> simp [Function.comp, hp]
  rw [hcomp]
  cases phys.find? (fun p => p.1 == n) with
  | none => rfl
  | some pr =>
    by_cases hp : pr.1 = tn <;> simp [hp]

/-- Appending a fresh table at the end of the store does not change a lookup
that already succeeds. -/
theorem lookupTable_append_of_some (phys : PhysicalStore) (x : String × List ArrowField)
    (n : String) (fs : List ArrowField) (h : lookupTable phys n = some fs) :
    lookupTable (phys ++ [x]) n = some fs := by
  unfold lookupTable at h ⊢
  rw [List.find?_append]
  obtain ⟨pr, hfind, hpr2⟩ := Option.map_eq_some'.mp h
  rw [hfind]
  simp [hpr2]

/-- Unfolding of the per-table step when the table does not exist
physically. -/
theorem updateTableInPhysical_of_none (caps : Capabilities) (phys : PhysicalStore)
    (t : LogicalTable) (h : lookupTable phys t.name = none) :
    updateTableInPhysical caps phys t
      = if t.columns.isEmpty then phys
        else phys ++ [(t.name, make_arrow_table_schema caps t)] := by
  unfold updateTableInPhysical
  rw [h]

/-- Unfolding of the per-table step when the table exists physically. -/
theorem updateTableInPhysical_of_some (caps : Capabilities) (phys : PhysicalStore)
    (t : LogicalTable) (existing : List ArrowField)
    (h : lookupTable phys t.name = some existing) :
    updateTableInPhysical caps phys t
      = if (get_new_table_columns t existing).isEmpty then phys
        else phys.map (fun p =>
          if p.1 == t.name
          then (p.1, extend_lancedb_table_schema p.2
            ((get_new_table_columns t existing).map (make_arrow_field_schema caps)))
          else p) := by
  unfold updateTableInPhysical
  rw [h]

/-- The per-table step of the schema update rewrites the updated table to its
extended field list: the existing fields followed by the mapped field schemas
of exactly the logically new columns. -/
theorem updateTable_lookup_self (caps : Capabilities) (phys : PhysicalStore)
    (t : LogicalTable) (existing : List ArrowField)
    (h : lookupTable phys t.name = some existing) :
    lookupTable (updateTableInPhysical caps phys t) t.name
      = some (extend_lancedb_table_schema existing
          ((get_new_table_columns t existing).map (make_arrow_field_schema caps))) := by
  rw [updateTableInPhysical_of_some caps phys t existing h]
  split_ifs with he
  · rw [List.isEmpty_iff.mp he]
    simpa [extend_lancedb_table_schema] using h
  · rw [lookupTable_map_extend]
    obtain ⟨pr, hfind, hpr2⟩ := Option.map_eq_some'.mp h
    rw [hfind]
    have hp : pr.1 = t.name := by simpa using List.find?_some hfind
    simp [hp, hpr2]

/-- The per-table step preserves every successful lookup up to appending, and
every appended field is a nullable mapped field schema of a column of the
updated table whose name is fresh in the looked-up field list. -/
theorem updateTable_lookup_mono (caps : Capabilities) (phys : PhysicalStore)
    (t : LogicalTable) (n : String) (fs : List ArrowField)
    (h : lookupTable phys n = some fs) :
    ∃ add : List ArrowField,
      lookupTable (updateTableInPhysical caps phys t) n = some (fs ++ add) ∧
      ∀ g ∈ add, g.nullable = true ∧ ∃ c ∈ t.columns,
        fs.any (fun f => f.name == c.name) = false ∧ g = make_arrow_field_schema caps c := by
  cases ht : lookupTable phys t.name with
  | none =>
    rw [updateTableInPhysical_of_none caps phys t ht]
    split_ifs with he
    · exact ⟨[], by simpa using h, by simp⟩
    · exact ⟨[], by simpa using lookupTable_append_of_some phys _ n fs h, by simp⟩
  | some existing =>
    rw [updateTableInPhysical_of_some caps phys t existing ht]
    split_ifs with he
    · exact ⟨[], by simpa using h, by simp⟩
    · obtain ⟨pr, hfind, hpr2⟩ := Option.map_eq_some'.mp h
      by_cases hp : pr.1 = t.name
      · have hn : pr.1 = n := by simpa using List.find?_some hfind
        have hteq : t.name = n := by rw [← hp, hn]
        have hfs : existing = fs := by
          rw [hteq] at ht
          exact Option.some_inj.mp (ht.symm.trans h)
        subst hfs
        refine ⟨(get_new_table_columns t existing).map (make_arrow_field_schema caps),
          ?_, ?_⟩
        · rw [lookupTable_map_extend, hfind]
          simp [hp, hpr2, extend_lancedb_table_schema]
        · intro g hg
          obtain ⟨c, hcmem, hgeq⟩ := List.mem_map.mp hg
          obtain ⟨hct, hnotany⟩ := List.mem_filter.mp hcmem
          exact ⟨hgeq ▸ rfl, c, hct, by simpa using hnotany, hgeq.symm⟩
      · refine ⟨[], ?_, by simp⟩
        rw [lookupTable_map_extend, hfind]
        simp [hp, hpr2]

/-- Across the whole per-table loop, a successful lookup stays successful,
keeps every field it had, answers name lookups for already present names
unchanged, and gains only nullable mapped field schemas of logically new
columns of some schema table. -/
theorem applyTables_lookup_mono (caps : Capabilities) (tables : List LogicalTable)
    (phys : PhysicalStore) (n : String) (fs : List ArrowField)
    (h : lookupTable phys n = some fs) :
    ∃ fs2, lookupTable (apply_schema_tables caps tables phys) n = some fs2 ∧
      (∀ f ∈ fs, f ∈ fs2) ∧
      (∀ m, fs.find? (fun f => f.name == m) ≠ none →
        fs2.find? (fun f => f.name == m) = fs.find? (fun f => f.name == m)) ∧
      (∀ g ∈ fs2, g ∈ fs ∨ (g.nullable = true ∧ ∃ t2 ∈ tables, ∃ c ∈ t2.columns,
        fs.any (fun f => f.name == c.name) = false
          ∧ g = make_arrow_field_schema caps c)) := by
  induction tables generalizing phys fs with
  | nil => exact ⟨fs, h, fun f hf => hf, fun m _ => rfl, fun g hg => Or.inl hg⟩
  | cons t rest ih =>
    obtain ⟨add, hstep, haddp⟩ := updateTable_lookup_mono caps phys t n fs h
    obtain ⟨fs2, hlook, hsub, hfindstab, hchar⟩ :=
      ih (updateTableInPhysical caps phys t) (fs ++ add) hstep
    refine ⟨fs2, hlook, ?_, ?_, ?_⟩
    · exact fun f hf => hsub f (List.mem_append_left _ hf)
    · intro m hm
      have hfa : (fs ++ add).find? (fun f => f.name == m)
          = fs.find? (fun f => f.name == m) := by
        rw [List.find?_append]
        cases hf : fs.find? (fun f => f.name == m) with
        | none => exact absurd hf hm
        | some v => simp
      rw [hfindstab m (by rw [hfa]; exact hm), hfa]
    · intro g hg
      rcases hchar g hg with hin | ⟨hnul, t2, ht2, c, hc, hany, hgeq⟩
      · rcases List.mem_append.mp hin with hfs | hadd
        · exact Or.inl hfs
        · obtain ⟨hnul, c, hc, hany, hgeq⟩ := haddp g hadd
          exact Or.inr ⟨hnul, t, List.mem_cons_self _ _, c, hc, hany, hgeq⟩
      · refine Or.inr ⟨hnul, t2, List.mem_cons_of_mem _ ht2, c, hc, ?_, hgeq⟩
        rw [List.any_append] at hany
        exact (Bool.or_eq_false_iff.mp hany).1

/-- C3: schema evolution is additive only. On a physically existing table the
per-table step produces exactly the existing fields extended with the field
schemas of the logically new columns; a field schema is the column name, the
TypeMapper type and nullable; and across the whole update every existing
field of every physical table stays present, a name already present keeps
resolving to the very same field (no drop, no rename, no retype), and every
gained field is a nullable TypeMapper-typed schema of a logically new
column. -/
theorem claim_C3 (caps : Capabilities) (tables : List LogicalTable) (t : LogicalTable)
    (phys : PhysicalStore) (existing : List ArrowField) (n : String)
    (fs : List ArrowField) :
    (lookupTable phys t.name = some existing →
        lookupTable (updateTableInPhysical caps phys t) t.name
          = some (extend_lancedb_table_schema existing
              ((get_new_table_columns t existing).map (make_arrow_field_schema caps)))) ∧
      (∀ c : LogicalColumn, make_arrow_field_schema caps c
        = ⟨c.name, to_db_type caps c.columnType, true⟩) ∧
      (lookupTable phys n = some fs →
        ∃ fs2, lookupTable (apply_schema_tables caps tables phys) n = some fs2 ∧
          (∀ f ∈ fs, f ∈ fs2) ∧
          (∀ m, fs.find? (fun f => f.name == m) ≠ none →
            fs2.find? (fun f => f.name == m) = fs.find? (fun f => f.name == m)) ∧
          (∀ g ∈ fs2, g ∈ fs ∨ (g.nullable = true ∧ ∃ t2 ∈ tables, ∃ c ∈ t2.columns,
            fs.any (fun f => f.name == c.name) = false
              ∧ g = make_arrow_field_schema caps c))) :=
  ⟨updateTable_lookup_self caps phys t existing, fun _ => rfl,
    applyTables_lookup_mono caps tables phys n fs⟩

/-- Witness for C3: extending physical table t (fields a, b) with logical
columns a and c appends exactly the mapped nullable field c. -/
theorem claim_C3_witness :
    lookupTable physT tableT.name = some fieldsT ∧
      lookupTable (updateTableInPhysical caps0 physT tableT) tableT.name
        = some (extend_lancedb_table_schema fieldsT
            ((get_new_table_columns tableT fieldsT).map (make_arrow_field_schema caps0))) :=
  ⟨by decide, (claim_C3 caps0 [tableT] tableT physT fieldsT "t" []).1 (by decide)⟩

/-- C7: orphan-removal payload padding is best effort and total. Every padding
column carries its field and either the type-specific default values or, when
no default exists for the type, null values (with a logged warning); the
padded payload is the original columns plus one padding column per missing
field; afterwards every field of the target schema is present in the payload;
and the payload handed to the merge write is the padded payload plus the
empty-string id column, so the job always reaches the merge write. -/
theorem claim_C7 (target : List ArrowField) (payload : List PayloadColumn)
    (num_rows : Nat) (id_field_name : String) :
    (∀ f : ArrowField, ∀ k : Nat, (paddingColumn f k).field = f ∧
        ((∃ v, get_default_arrow_value f.ty = .ok v ∧
            (paddingColumn f k).values = List.replicate k v) ∨
          ((∃ m, get_default_arrow_value f.ty = .error m) ∧
            (paddingColumn f k).values = List.replicate k .nullV))) ∧
      padPayload target payload num_rows
        = payload
            ++ (schemaDifference target payload).map (fun f => paddingColumn f num_rows) ∧
      (∀ f ∈ target,
        (padPayload target payload num_rows).any (fun c => c.field == f) = true) ∧
      orphanPayload target payload num_rows id_field_name
        = padPayload target payload num_rows
            ++ [⟨⟨id_field_name, some .string, true⟩, List.replicate num_rows (.str "")⟩] := by
  refine ⟨?_, rfl, ?_, rfl⟩
  · intro f k
    unfold paddingColumn
    cases hd : get_default_arrow_value f.ty with
    | ok v => exact ⟨rfl, Or.inl ⟨v, rfl, rfl⟩⟩
    | error m => exact ⟨rfl, Or.inr ⟨⟨m, rfl⟩, rfl⟩⟩
  · intro f hf
    rw [padPayload, List.any_append]
    by_cases hc : payload.any (fun c => c.field == f) = true
    · rw [hc]
      simp
    · have hcf : payload.any (fun c => c.field == f) = false := by simpa using hc
      have hdiff : f ∈ schemaDifference target payload :=
        List.mem_filter.mpr ⟨hf, by simp [hcf]⟩
      have hmem : paddingColumn f num_rows ∈
          (schemaDifference target payload).map (fun f => paddingColumn f num_rows) :=
        List.mem_map_of_mem _ hdiff
      have hany : ((schemaDifference target payload).map
          (fun f => paddingColumn f num_rows)).any (fun c => c.field == f) = true :=
        List.any_eq_true.mpr ⟨_, hmem, by
          unfold paddingColumn
          cases get_default_arrow_value f.ty <;> simp⟩
      rw [hany]
      simp

/-- Witness for C7: padding against targetFields fills the decimal field y,
which has no type-specific default, with nulls rather than failing, so y is
present in the padded payload. -/
theorem claim_C7_witness :
    (⟨"y", some (.decimal128 5 2), true⟩ : ArrowField) ∈ targetFields ∧
      (padPayload targetFields [] 2).any
        (fun c => c.field == (⟨"y", some (.decimal128 5 2), true⟩ : ArrowField)) = true :=
  ⟨by decide,
    (claim_C7 targetFields [] 2 "_dlt_id").2.2.1 ⟨"y", some (.decimal128 5 2), true⟩
      (by decide)⟩

end Dlt
